import Mathlib

/-!
Verification of the progressive reveal / dissolve animation engine of the
"Rencontres" tab (src/app/page.tsx): the dot-field grid built by
`initRevealDots`, its Fisher-Yates shuffle, the batched reveal loop of
`startRevealAnimation`, and the surrounding session-controller handlers
(`togglePaletteColor`, the Nuages/Brumes mode toggle, `handleGeneratePalette`).

JavaScript numbers are modelled with exact rationals; a division whose
denominator is zero (which in the source produces NaN) is modelled as `none`
in `Option`.
-/

namespace Nuances

/-- A cell of the canvas: the integer coordinate pair `{x, y}` pushed by
`initRevealDots`. -/
abbrev Cell := ℕ × ℕ

/-- `currentIndex / dots.length` as computed by the reveal loop.  JavaScript
division of the reachable operands (`0 / 0`) yields NaN when the denominator
is zero, modelled as `none`. -/
def jsDiv (a b : ℕ) : Option ℚ :=
  if b = 0 then none else some ((a : ℚ) / (b : ℚ))

/-- `Math.floor(q * t)`: NaN (`none`) propagates through the multiplication
and the floor. -/
def jsFloorMul (q : Option ℚ) (t : ℕ) : Option ℤ :=
  q.map (fun x => ⌊x * (t : ℚ)⌋)

/-- The row-major cell enumeration of `initRevealDots`: outer loop on
`y < canvas.height`, inner loop on `x < canvas.width` (dotSize 1), pushing
`{x, y}`. -/
def dotGrid (W H : ℕ) : List Cell :=
  (List.range H).flatMap (fun y => (List.range W).map (fun x => (x, y)))

/-- The destructuring swap `[dots[i], dots[j]] = [dots[j], dots[i]]`. -/
def swapAt {α : Type*} (l : List α) (i j : ℕ) : List α :=
  match l[i]?, l[j]? with
  | some a, some b => (l.set i b).set j a
  | _, _ => l

/-- The descending loop indices of the shuffle:
`for (let i = dots.length - 1; i > 0; i--)`, i.e. `[n-1, n-2, ..., 1]`. -/
def shuffleIndices (n : ℕ) : List ℕ :=
  (List.range' 1 (n - 1)).reverse

/-- Fold a list of `(i, j)` swap operations over the array. -/
def applySwaps {α : Type*} (ops : List (ℕ × ℕ)) (l : List α) : List α :=
  ops.foldl (fun acc p => swapAt acc p.1 p.2) l

/-- The in-place shuffle of `initRevealDots`: for `i` from `dots.length - 1`
down to `1`, swap position `i` with position `js[k]` (the embedding of the
random draw `Math.floor(Math.random() * (i + 1))` at that iteration). -/
def shuffle {α : Type*} (js : List ℕ) (l : List α) : List α :=
  applySwaps ((shuffleIndices l.length).zip js) l

/-- `js` is a possible sequence of random draws for a list of length `n`:
one draw per loop iteration, the draw paired with loop index `i = n - 1 - k`
lying in `[0, i]`. -/
def validDraws (n : ℕ) (js : List ℕ) : Prop :=
  js.length = n - 1 ∧ ∀ k, k < js.length → js.getD k 0 ≤ n - 1 - k

/-- `dotsPerFrame = Math.max(2000, Math.floor(dots.length / 200))`. -/
def dotsPerFrame (n : ℕ) : ℕ := max 2000 (n / 200)

/-- The observable effects of one execution of `reveal()` in
`startRevealAnimation`, entered with cursor `startCursor`. -/
structure Frame where
  startCursor : ℕ
  endIndex : ℕ
  clearedBatch : List ℕ
  revealedCount : Option ℤ
  progress : Option ℚ
  schedulesNext : Bool
deriving DecidableEq

/-- One execution of `reveal()`: `endIndex = Math.min(currentIndex +
dotsPerFrame, dots.length)`; `clearRect` on `dots[i]` for
`currentIndex <= i < endIndex`; `revealed = Math.floor((currentIndex /
dots.length) * totalCount)`; `setPaletteCount(revealed)`;
`setRevealProgress(currentIndex / dots.length)`; reschedule iff
`currentIndex < dots.length`. -/
def revealFrame (N T c : ℕ) : Frame :=
  let e := min (c + dotsPerFrame N) N
  { startCursor := c
    endIndex := e
    clearedBatch := List.range' c (e - c)
    revealedCount := jsFloorMul (jsDiv e N) T
    progress := jsDiv e N
    schedulesNext := decide (e < N) }

/-- The full sequence of frames executed by the reveal loop from cursor `c`,
with `N = dots.length` and `T = totalCount`. -/
def revealRun (N T c : ℕ) : List Frame :=
  if (revealFrame N T c).endIndex < N then
    revealFrame N T c :: revealRun N T (revealFrame N T c).endIndex
  else [revealFrame N T c]
termination_by N - c
decreasing_by
  simp only [revealFrame, dotsPerFrame] at *
  omega

/-- The indices cleared over a list of frames (concatenation of the
`clearRect` batches). -/
def clearedIndices (fs : List Frame) : List ℕ :=
  fs.flatMap Frame.clearedBatch

/-- Observable React state mutated by the reveal loop. -/
structure Store where
  isPaletteRevealing : Bool
  paletteCount : Option ℤ
  revealProgress : Option ℚ
deriving DecidableEq

/-- Apply the `setState` calls of one frame: `setPaletteCount(revealed)` and
`setRevealProgress(...)` always; when the cursor is exhausted additionally
`setIsPaletteRevealing(false)` and `setPaletteCount(totalCount)`. -/
def applyFrame (T : ℕ) (s : Store) (f : Frame) : Store :=
  let s1 := { s with paletteCount := f.revealedCount, revealProgress := f.progress }
  if f.schedulesNext then s1
  else { s1 with isPaletteRevealing := false, paletteCount := some (T : ℤ) }

/-- `startRevealAnimation`: `setIsPaletteRevealing(true)`, then the reveal
loop runs to completion, mutating the store frame by frame. -/
def runStore (N T : ℕ) (s : Store) : Store :=
  (revealRun N T 0).foldl (applyFrame T) { s with isPaletteRevealing := true }

/-- The successive values passed to `setPaletteCount` during one session:
one per frame, plus the final `setPaletteCount(totalCount)` of the
completion branch. -/
def emittedCounts (N T : ℕ) : List (Option ℤ) :=
  (revealRun N T 0).flatMap
    (fun f => if f.schedulesNext then [f.revealedCount] else [f.revealedCount, some (T : ℤ)])

/-- The successive values passed to `setRevealProgress` during one session. -/
def progressSeq (N T : ℕ) : List (Option ℚ) :=
  (revealRun N T 0).map Frame.progress

/-- The eight palette colors (`type ColorKey`). -/
inductive ColorKey
  | bleu | rouge | vert | jaune | orange | marron | gris | violet
deriving DecidableEq

/-- The Nuages/Brumes generation-mode toggle state. -/
inductive RencontresMode
  | nuages | brumes
deriving DecidableEq

/-- A parsed generation response (`PaletteResult` / `GenerationResult`):
`total_available` and `error` are optional fields. -/
structure GenResponse where
  preview : String
  count : ℕ
  total_available : Option ℕ
  error : Option String
deriving DecidableEq

/-- `data.total_available || data.count`: JavaScript `||` takes the left
operand when it is truthy (present and non-zero), else the right. -/
def jsOr (ta : Option ℕ) (c : ℕ) : ℕ :=
  match ta with
  | some t => if t = 0 then c else t
  | none => c

/-- The component state touched by the Rencontres handlers.  `animationHandle`
is the currently scheduled `requestAnimationFrame` callback (if any);
`canvasCleared` is the list of canvas cells currently cleared of the white
covering paint (`[]` = canvas fully covered); `dots` is `dotsRef.current`. -/
structure UIState where
  selectedPaletteColors : List ColorKey
  palettePreview : Option String
  paletteResult : Option GenResponse
  paletteCount : ℕ
  revealProgress : ℚ
  paletteError : Option String
  isPaletteGenerating : Bool
  isPaletteRevealing : Bool
  rencontresMode : RencontresMode
  animationHandle : Option ℕ
  dots : List Cell
  canvasCleared : List Cell
deriving DecidableEq

/-- `togglePaletteColor(color)`: if a preview is displayed, clear the
preview/result/count/progress state and repaint the canvas white
(`fillRect` over the whole canvas); then toggle `color` in the selected
set.  The scheduled animation frame is not touched. -/
def togglePaletteColor (color : ColorKey) (s : UIState) : UIState :=
  let s1 :=
    if s.palettePreview.isSome then
      { s with palettePreview := none, paletteResult := none, paletteCount := 0,
               revealProgress := 0, canvasCleared := [] }
    else s
  { s1 with selectedPaletteColors :=
      if color ∈ s1.selectedPaletteColors then s1.selectedPaletteColors.erase color
      else color :: s1.selectedPaletteColors }

/-- The `onClick` of the Nuages mode-toggle button: when the mode differs,
switch it and clear the preview/result/count/progress state.  Neither the
scheduled animation frame nor the canvas is touched. -/
def setModeNuages (s : UIState) : UIState :=
  if s.rencontresMode ≠ RencontresMode.nuages then
    { s with rencontresMode := RencontresMode.nuages, palettePreview := none,
             paletteResult := none, paletteCount := 0, revealProgress := 0 }
  else s

/-- The `onClick` of the Brumes mode-toggle button (mirror of
`setModeNuages`). -/
def setModeBrumes (s : UIState) : UIState :=
  if s.rencontresMode ≠ RencontresMode.brumes then
    { s with rencontresMode := RencontresMode.brumes, palettePreview := none,
             paletteResult := none, paletteCount := 0, revealProgress := 0 }
  else s

/-- `initRevealDots` on a `W x H` canvas with random draws `js`: build the
row-major grid, shuffle it in place, store it in `dotsRef`, and paint the
whole canvas white (covering). -/
def initRevealDots (js : List ℕ) (W H : ℕ) (s : UIState) : UIState :=
  { s with dots := shuffle js (dotGrid W H), canvasCleared := [] }

/-- The synchronous reset prefix of `handleGeneratePalette` (before the
fetch): cancel any scheduled animation frame, reset
generating/error/result/preview/count/progress, and run `initRevealDots`. -/
def generateReset (js : List ℕ) (W H : ℕ) (s : UIState) : UIState :=
  initRevealDots js W H
    { s with animationHandle := none, isPaletteGenerating := true,
             paletteError := none, paletteResult := none, palettePreview := none,
             paletteCount := 0, revealProgress := 0 }

/-- `handleGeneratePalette`, with the fetch outcome supplied as `resp`
(`Except.error` = rejected request, caught with its message).  On a response
carrying an `error` field the function surfaces it and returns; otherwise it
stores the preview and `displayCount = data.total_available || data.count`
and, once the image has loaded, `startRevealAnimation(displayCount)` sets
`isPaletteRevealing` and schedules the first frame. -/
def handleGeneratePalette (js : List ℕ) (W H : ℕ)
    (resp : Except String GenResponse) (s : UIState) : UIState :=
  if s.selectedPaletteColors.length < 2 then s
  else
    let s3 := generateReset js W H s
    match resp with
    | Except.error msg =>
      { s3 with paletteError := some msg, isPaletteGenerating := false }
    | Except.ok data =>
      if data.error.isSome then
        { s3 with paletteError := data.error, isPaletteGenerating := false }
      else
        let displayCount := jsOr data.total_available data.count
        { s3 with palettePreview := some data.preview, paletteCount := displayCount,
                  paletteResult := some data, isPaletteGenerating := false,
                  isPaletteRevealing := true, animationHandle := some 1 }

/-! ### Arithmetic helpers for the ceiling frame count -/

theorem dotsPerFrame_pos (n : ℕ) : 0 < dotsPerFrame n :=
  lt_of_lt_of_le (by norm_num) (le_max_left 2000 (n / 200))

theorem ceil_mul_ge (N B : ℕ) (hB : 0 < B) : N ≤ ((N + B - 1) / B) * B := by
  have h1 := Nat.div_add_mod (N + B - 1) B
  have h2 := Nat.mod_lt (N + B - 1) hB
  rw [Nat.mul_comm]
  omega

theorem ceil_pred_mul_lt (N B : ℕ) (hB : 0 < B) (hN : 0 < N) :
    ((N + B - 1) / B - 1) * B < N := by
  have h1 := Nat.div_add_mod (N + B - 1) B
  have h2 := Nat.mod_lt (N + B - 1) hB
  have h3 : ((N + B - 1) / B - 1) * B = B * ((N + B - 1) / B) - B := by
    rw [Nat.sub_mul, Nat.one_mul, Nat.mul_comm]
  rw [h3]
  omega

theorem ceil_pos (N B : ℕ) (hB : 0 < B) (hN : 0 < N) : 0 < (N + B - 1) / B := by
  have h1 := Nat.div_add_mod (N + B - 1) B
  have h2 := Nat.mod_lt (N + B - 1) hB
  by_contra h
  simp only [Nat.not_lt, Nat.le_zero] at h
  rw [h] at h1
  omega

/-! ### Structure of the reveal run -/

theorem revealFrame_endIndex (N T c : ℕ) :
    (revealFrame N T c).endIndex = min (c + dotsPerFrame N) N := rfl

theorem revealFrame_clearedBatch (N T c : ℕ) :
    (revealFrame N T c).clearedBatch =
      List.range' c (min (c + dotsPerFrame N) N - c) := rfl

theorem revealFrame_schedulesNext (N T c : ℕ) :
    (revealFrame N T c).schedulesNext = decide (min (c + dotsPerFrame N) N < N) := rfl

theorem revealRun_head? (N T c : ℕ) :
    (revealRun N T c).head? = some (revealFrame N T c) := by
  rw [revealRun]
  split <;> rfl

theorem revealRun_ne_nil (N T c : ℕ) : revealRun N T c ≠ [] := by
  intro h
  have := revealRun_head? N T c
  rw [h] at this
  exact Option.noConfusion this

theorem revealRun_mem (N T c : ℕ) :
    ∀ f ∈ revealRun N T c, ∃ c', f = revealFrame N T c' := by
  rw [revealRun]
  split
  next h =>
    intro f hf
    rcases List.mem_cons.1 hf with h1 | h1
    · exact ⟨c, h1⟩
    · exact revealRun_mem N T (revealFrame N T c).endIndex f h1
  next h =>
    intro f hf
    rcases List.mem_singleton.1 hf with h1
    exact ⟨c, h1⟩
termination_by N - c
decreasing_by
  simp only [revealFrame, dotsPerFrame] at *
  omega

theorem clearedIndices_revealRun (N T c : ℕ) :
    clearedIndices (revealRun N T c) = List.range' c (N - c) := by
  rw [revealRun]
  split
  next h =>
    have hB : 0 < dotsPerFrame N := dotsPerFrame_pos N
    have he : (revealFrame N T c).endIndex = c + dotsPerFrame N := by
      rw [revealFrame_endIndex]
      rw [revealFrame_endIndex] at h
      omega
    have ih := clearedIndices_revealRun N T (revealFrame N T c).endIndex
    rw [clearedIndices, List.flatMap_cons]
    rw [clearedIndices] at ih
    rw [ih, revealFrame_clearedBatch, he]
    rw [revealFrame_endIndex] at h
    have h1 : min (c + dotsPerFrame N) N - c = dotsPerFrame N := by omega
    rw [h1]
    have h2 := List.range'_append_1 c (dotsPerFrame N) (N - (c + dotsPerFrame N))
    rw [h2]
    congr 1
    omega
  next h =>
    have he : (revealFrame N T c).endIndex = N := by
      rw [revealFrame_endIndex]
      rw [revealFrame_endIndex] at h
      omega
    rw [clearedIndices, List.flatMap_cons]
    simp only [clearedIndices, List.flatMap_nil, List.append_nil]
    rw [revealFrame_clearedBatch]
    rw [revealFrame_endIndex] at he
    rw [he]
termination_by N - c
decreasing_by
  simp only [revealFrame, dotsPerFrame] at *
  omega

theorem revealRun_eq_map (N T c : ℕ) (h : c < N) :
    revealRun N T c =
      (List.range ((N - c + dotsPerFrame N - 1) / dotsPerFrame N)).map
        (fun k => revealFrame N T (c + k * dotsPerFrame N)) := by
  have hB : 0 < dotsPerFrame N := dotsPerFrame_pos N
  rw [revealRun]
  split
  next h1 =>
    have he : (revealFrame N T c).endIndex = c + dotsPerFrame N := by
      rw [revealFrame_endIndex]
      rw [revealFrame_endIndex] at h1
      omega
    rw [revealFrame_endIndex] at h1
    have hcB : c + dotsPerFrame N < N := by omega
    have ih := revealRun_eq_map N T (c + dotsPerFrame N) hcB
    rw [he, ih]
    have hF : (N - c + dotsPerFrame N - 1) / dotsPerFrame N =
        (N - (c + dotsPerFrame N) + dotsPerFrame N - 1) / dotsPerFrame N + 1 := by
      have harg : N - c + dotsPerFrame N - 1 =
          (N - (c + dotsPerFrame N) + dotsPerFrame N - 1) + dotsPerFrame N := by omega
      rw [harg, Nat.add_div_right _ hB]
    rw [hF, List.range_succ_eq_map, List.map_cons, List.map_map]
    congr 1
    · simp
    · apply List.map_congr_left
      intro k _
      simp only [Function.comp_apply]
      congr 1
      simp only [Nat.succ_eq_add_one]
      ring
  next h1 =>
    rw [revealFrame_endIndex] at h1
    have hNle : N ≤ c + dotsPerFrame N := by omega
    have hF : (N - c + dotsPerFrame N - 1) / dotsPerFrame N = 1 := by
      have harg : N - c + dotsPerFrame N - 1 = (N - c - 1) + dotsPerFrame N := by omega
      rw [harg, Nat.add_div_right _ hB, Nat.div_eq_of_lt (by omega)]
    rw [hF]
    simp [List.range_succ]
termination_by N - c
decreasing_by
  simp only [revealFrame, dotsPerFrame] at *
  omega

theorem revealRun_length (N T : ℕ) (h : 0 < N) :
    (revealRun N T 0).length = (N + dotsPerFrame N - 1) / dotsPerFrame N := by
  rw [revealRun_eq_map N T 0 h]
  simp

theorem revealRun_get (N T k : ℕ) (h : 0 < N)
    (hk : k < (revealRun N T 0).length) :
    (revealRun N T 0).get ⟨k, hk⟩ = revealFrame N T (k * dotsPerFrame N) := by
  have h0 := revealRun_eq_map N T 0 h
  rw [List.get_eq_getElem]
  simp only [h0, List.getElem_map, List.getElem_range, Nat.zero_add]

theorem revealFrame_progress (N T c : ℕ) :
    (revealFrame N T c).progress = jsDiv (revealFrame N T c).endIndex N := rfl

theorem revealFrame_revealedCount (N T c : ℕ) :
    (revealFrame N T c).revealedCount =
      jsFloorMul (jsDiv (revealFrame N T c).endIndex N) T := rfl

theorem revealFrame_endIndex_le (N T c : ℕ) : (revealFrame N T c).endIndex ≤ N := by
  rw [revealFrame_endIndex]
  omega

theorem revealRun_chain (N T c : ℕ) :
    List.Chain' (fun f g => f.endIndex ≤ g.endIndex) (revealRun N T c) := by
  rw [revealRun]
  split
  next h =>
    rw [List.chain'_cons']
    refine ⟨?_, revealRun_chain N T (revealFrame N T c).endIndex⟩
    intro g hg
    rw [revealRun_head? N T (revealFrame N T c).endIndex] at hg
    simp only [Option.mem_def, Option.some.injEq] at hg
    subst hg
    rw [revealFrame_endIndex (c := (revealFrame N T c).endIndex)]
    have := revealFrame_endIndex_le N T c
    omega
  next h => exact List.chain'_singleton _
termination_by N - c
decreasing_by
  simp only [revealFrame, dotsPerFrame] at *
  omega

theorem revealRun_emit_eq (N T c : ℕ) :
    ((revealRun N T c).flatMap
        (fun f => if f.schedulesNext then [f.revealedCount]
                  else [f.revealedCount, some (T : ℤ)]))
      = (revealRun N T c).map Frame.revealedCount ++ [some (T : ℤ)] := by
  rw [revealRun]
  split
  next h =>
    have hs : (revealFrame N T c).schedulesNext = true := by
      rw [revealFrame_schedulesNext]
      rw [revealFrame_endIndex] at h
      simpa using h
    rw [List.flatMap_cons, List.map_cons, hs]
    rw [revealRun_emit_eq N T (revealFrame N T c).endIndex]
    simp
  next h =>
    have hs : (revealFrame N T c).schedulesNext = false := by
      rw [revealFrame_schedulesNext]
      rw [revealFrame_endIndex] at h
      simpa using h
    simp [hs]
termination_by N - c
decreasing_by
  simp only [revealFrame, dotsPerFrame] at *
  omega

theorem foldl_applyFrame_final (N T c : ℕ) (s : Store) :
    ((revealRun N T c).foldl (applyFrame T) s).isPaletteRevealing = false ∧
    ((revealRun N T c).foldl (applyFrame T) s).paletteCount = some (T : ℤ) := by
  rw [revealRun]
  split
  next h =>
    rw [List.foldl_cons]
    exact foldl_applyFrame_final N T (revealFrame N T c).endIndex _
  next h =>
    have hs : (revealFrame N T c).schedulesNext = false := by
      rw [revealFrame_schedulesNext]
      rw [revealFrame_endIndex] at h
      simpa using h
    rw [List.foldl_cons, List.foldl_nil]
    simp [applyFrame, hs]
termination_by N - c
decreasing_by
  simp only [revealFrame, dotsPerFrame] at *
  omega

theorem runStore_final (N T : ℕ) (s : Store) :
    (runStore N T s).isPaletteRevealing = false ∧
    (runStore N T s).paletteCount = some (T : ℤ) := by
  rw [runStore]
  exact foldl_applyFrame_final N T 0 _

theorem revealRun_getLast (N T c : ℕ) :
    ∃ c', (revealRun N T c).getLast? = some (revealFrame N T c') ∧
      (revealFrame N T c').endIndex = N ∧
      (revealFrame N T c').schedulesNext = false := by
  rw [revealRun]
  split
  next h =>
    obtain ⟨c', h1, h2, h3⟩ := revealRun_getLast N T (revealFrame N T c).endIndex
    refine ⟨c', ?_, h2, h3⟩
    have hne := revealRun_ne_nil N T (revealFrame N T c).endIndex
    cases hrest : revealRun N T (revealFrame N T c).endIndex with
    | nil => exact absurd hrest hne
    | cons b l =>
      rw [List.getLast?_cons_cons]
      rw [hrest] at h1
      exact h1
  next h =>
    have he : (revealFrame N T c).endIndex = N := by
      rw [revealFrame_endIndex]
      rw [revealFrame_endIndex] at h
      omega
    have hs : (revealFrame N T c).schedulesNext = false := by
      rw [revealFrame_schedulesNext]
      rw [revealFrame_endIndex] at h
      simpa using h
    exact ⟨c, by simp, he, hs⟩
termination_by N - c
decreasing_by
  simp only [revealFrame, dotsPerFrame] at *
  omega

/-! ### Observed value sequences (positive cell count) -/

theorem progressSeq_eq (N T : ℕ) (h : 0 < N) :
    progressSeq N T =
      ((revealRun N T 0).map (fun f => (f.endIndex : ℚ) / (N : ℚ))).map some := by
  rw [progressSeq, List.map_map]
  apply List.map_congr_left
  intro f hf
  obtain ⟨c', rfl⟩ := revealRun_mem N T 0 f hf
  rw [revealFrame_progress]
  simp [jsDiv, Nat.pos_iff_ne_zero.1 h]

theorem countsSeq_eq (N T : ℕ) (h : 0 < N) :
    (revealRun N T 0).map Frame.revealedCount =
      ((revealRun N T 0).map
        (fun f => ⌊((f.endIndex : ℚ) / (N : ℚ)) * (T : ℚ)⌋)).map some := by
  rw [List.map_map]
  apply List.map_congr_left
  intro f hf
  obtain ⟨c', rfl⟩ := revealRun_mem N T 0 f hf
  rw [revealFrame_revealedCount]
  simp [jsDiv, jsFloorMul, Nat.pos_iff_ne_zero.1 h]

theorem progressVals_chain (N T : ℕ) (h : 0 < N) :
    List.Chain' (· ≤ ·)
      ((revealRun N T 0).map (fun f => (f.endIndex : ℚ) / (N : ℚ))) := by
  apply List.chain'_map_of_chain' _ _ (revealRun_chain N T 0)
  intro f g hfg
  have hN : (0 : ℚ) < (N : ℚ) := by exact_mod_cast h
  exact (div_le_div_iff_of_pos_right hN).2 (by exact_mod_cast hfg)

theorem countsVals_chain (N T : ℕ) (h : 0 < N) :
    List.Chain' (· ≤ ·)
      ((revealRun N T 0).map
        (fun f => ⌊((f.endIndex : ℚ) / (N : ℚ)) * (T : ℚ)⌋)) := by
  apply List.chain'_map_of_chain' _ _ (revealRun_chain N T 0)
  intro f g hfg
  have hN : (0 : ℚ) < (N : ℚ) := by exact_mod_cast h
  apply Int.floor_mono
  apply mul_le_mul_of_nonneg_right _ (by positivity)
  exact (div_le_div_iff_of_pos_right hN).2 (by exact_mod_cast hfg)

theorem progressVals_bounds (N T : ℕ) (h : 0 < N) :
    ∀ q ∈ (revealRun N T 0).map (fun f => (f.endIndex : ℚ) / (N : ℚ)),
      0 ≤ q ∧ q ≤ 1 := by
  intro q hq
  rw [List.mem_map] at hq
  obtain ⟨f, hf, rfl⟩ := hq
  obtain ⟨c', rfl⟩ := revealRun_mem N T 0 f hf
  have hle := revealFrame_endIndex_le N T c'
  have hN : (0 : ℚ) < (N : ℚ) := by exact_mod_cast h
  constructor
  · positivity
  · rw [div_le_one hN]
    exact_mod_cast hle

theorem countsVals_nonneg (N T : ℕ) (h : 0 < N) :
    ∀ z ∈ (revealRun N T 0).map
        (fun f => ⌊((f.endIndex : ℚ) / (N : ℚ)) * (T : ℚ)⌋),
      0 ≤ z := by
  intro z hz
  rw [List.mem_map] at hz
  obtain ⟨f, hf, rfl⟩ := hz
  apply Int.floor_nonneg.2
  positivity

theorem countsVals_getLast (N T : ℕ) (h : 0 < N) :
    ((revealRun N T 0).map
        (fun f => ⌊((f.endIndex : ℚ) / (N : ℚ)) * (T : ℚ)⌋)).getLast?
      = some (T : ℤ) := by
  obtain ⟨c', h1, h2, _⟩ := revealRun_getLast N T 0
  rw [List.getLast?_map, h1]
  have hN : ((N : ℚ)) ≠ 0 := by exact_mod_cast Nat.pos_iff_ne_zero.1 h
  rw [Option.map_some', h2, div_self hN, one_mul, Int.floor_natCast]

theorem emittedCounts_eq (N T : ℕ) (h : 0 < N) :
    emittedCounts N T =
      (((revealRun N T 0).map
          (fun f => ⌊((f.endIndex : ℚ) / (N : ℚ)) * (T : ℚ)⌋)) ++ [(T : ℤ)]).map some := by
  rw [emittedCounts, revealRun_emit_eq, countsSeq_eq N T h, List.map_append]
  rfl

/-! ### The row-major grid -/

theorem dotGrid_succ (W n : ℕ) :
    dotGrid W (n + 1) = dotGrid W n ++ (List.range W).map (fun x => (x, n)) := by
  rw [dotGrid, List.range_succ, List.flatMap_append]
  simp [dotGrid]

theorem dotGrid_length (W H : ℕ) : (dotGrid W H).length = W * H := by
  induction H with
  | zero => simp [dotGrid]
  | succ n ih => simp [dotGrid_succ, ih, Nat.mul_succ]

theorem count_range (x W : ℕ) : (List.range W).count x = if x < W then 1 else 0 := by
  by_cases hx : x < W
  · rw [if_pos hx]
    exact List.count_eq_one_of_mem (List.nodup_range W) (List.mem_range.2 hx)
  · rw [if_neg hx]
    exact List.count_eq_zero_of_not_mem (fun hc => hx (List.mem_range.1 hc))

theorem count_row (x y n : ℕ) (ts : List ℕ) :
    ((ts.map (fun t => (t, n))).count (x, y)) = if y = n then ts.count x else 0 := by
  induction ts with
  | nil => simp
  | cons a ts ih =>
    simp only [List.map_cons, List.count_cons, ih]
    by_cases hy : y = n <;> by_cases hx : a = x <;>
      simp [hx, hy, Prod.ext_iff] <;> omega

theorem dotGrid_count (W H x y : ℕ) :
    (dotGrid W H).count (x, y) = if x < W ∧ y < H then 1 else 0 := by
  induction H with
  | zero => simp [dotGrid]
  | succ n ih =>
    rw [dotGrid_succ, List.count_append, ih, count_row, count_range]
    split_ifs <;> omega

theorem map_getD_range {α : Type*} (l : List α) (d : α) :
    (List.range l.length).map (fun i => l.getD i d) = l := by
  induction l with
  | nil => simp
  | cons a t ih =>
    rw [List.length_cons, List.range_succ_eq_map, List.map_cons, List.map_map]
    simp only [List.getD_cons_zero]
    have hfun : ((fun i => (a :: t).getD i d) ∘ Nat.succ) = (fun i => t.getD i d) := by
      funext i
      simp
    rw [hfun, ih]

/-! ### The shuffle is a permutation -/

theorem cons_set_perm {α : Type*} :
    ∀ (j : ℕ) (l : List α) (x b : α), l[j]? = some b →
      (b :: l.set j x).Perm (x :: l)
  | _, [], _, _, h => by simp at h
  | 0, a :: t, x, b, h => by
    simp only [List.getElem?_cons_zero, Option.some.injEq] at h
    subst h
    rw [List.set_cons_zero]
    exact List.Perm.swap x a t
  | (j+1), a :: t, x, b, h => by
    simp only [List.getElem?_cons_succ] at h
    rw [List.set_cons_succ]
    exact (List.Perm.swap a b (t.set j x)).trans
      (((cons_set_perm j t x b h).cons a).trans (List.Perm.swap x a t))

theorem set_set_perm {α : Type*} :
    ∀ (l : List α) (i j : ℕ) (a b : α), l[i]? = some a → l[j]? = some b →
      ((l.set i b).set j a).Perm l
  | [], _, _, _, _, ha, _ => by simp at ha
  | x :: t, 0, 0, a, b, ha, hb => by
    simp only [List.getElem?_cons_zero, Option.some.injEq] at ha hb
    subst ha
    rw [List.set_cons_zero, List.set_cons_zero]
  | x :: t, 0, (k+1), a, b, ha, hb => by
    simp only [List.getElem?_cons_zero, List.getElem?_cons_succ, Option.some.injEq] at ha hb
    subst ha
    rw [List.set_cons_zero, List.set_cons_succ]
    exact cons_set_perm k t x b hb
  | x :: t, (m+1), 0, a, b, ha, hb => by
    simp only [List.getElem?_cons_zero, List.getElem?_cons_succ, Option.some.injEq] at ha hb
    subst hb
    rw [List.set_cons_succ, List.set_cons_zero]
    exact cons_set_perm m t x a ha
  | x :: t, (m+1), (k+1), a, b, ha, hb => by
    simp only [List.getElem?_cons_succ] at ha hb
    rw [List.set_cons_succ, List.set_cons_succ]
    exact (set_set_perm t m k a b ha hb).cons x

theorem swapAt_perm {α : Type*} (l : List α) (i j : ℕ) : (swapAt l i j).Perm l := by
  rw [swapAt]
  split
  next a b ha hb => exact set_set_perm l i j a b ha hb
  next => exact List.Perm.refl l

theorem applySwaps_perm {α : Type*} (ops : List (ℕ × ℕ)) (l : List α) :
    (applySwaps ops l).Perm l := by
  induction ops generalizing l with
  | nil => exact List.Perm.refl l
  | cons p rest ih =>
    rw [applySwaps, List.foldl_cons]
    exact (ih (swapAt l p.1 p.2)).trans (swapAt_perm l p.1 p.2)

theorem shuffle_perm {α : Type*} (js : List ℕ) (l : List α) :
    (shuffle js l).Perm l :=
  applySwaps_perm _ l

/-! ### Structure of the Fisher-Yates loop -/

theorem swapAt_length {α : Type*} (l : List α) (i j : ℕ) :
    (swapAt l i j).length = l.length := by
  rw [swapAt]
  split
  next a b ha hb => simp
  next => rfl

theorem shuffleIndices_length (n : ℕ) : (shuffleIndices n).length = n - 1 := by
  simp [shuffleIndices]

theorem shuffleIndices_succ (n : ℕ) (h : 1 ≤ n) :
    shuffleIndices (n + 1) = n :: shuffleIndices n := by
  rw [shuffleIndices, shuffleIndices]
  have h1 : n + 1 - 1 = (n - 1) + 1 := by omega
  rw [h1, List.range'_1_concat, List.reverse_append, List.reverse_singleton,
    List.singleton_append]
  congr 1
  omega

theorem mem_shuffleIndices (n i : ℕ) : i ∈ shuffleIndices n ↔ 1 ≤ i ∧ i < n := by
  rw [shuffleIndices, List.mem_reverse, List.mem_range']
  constructor
  · rintro ⟨k, hk, rfl⟩
    omega
  · intro h
    exact ⟨i - 1, by omega, by omega⟩

theorem shuffleIndices_getElem? (n k : ℕ) (hk : k < n - 1) :
    (shuffleIndices n)[k]? = some (n - 1 - k) := by
  rw [shuffleIndices]
  rw [List.getElem?_eq_getElem (by simpa using hk)]
  rw [List.getElem_reverse]
  rw [List.getElem_range']
  congr 1
  simp only [List.length_range']
  omega

theorem swapAt_getLast? {α : Type*} (l : List α) (m q : ℕ)
    (hl : l.length = m + 1) (hq : q ≤ m) :
    (swapAt l m q).getLast? = l[q]? := by
  have hm : m < l.length := by omega
  have hq' : q < l.length := by omega
  simp only [swapAt, List.getElem?_eq_getElem hm, List.getElem?_eq_getElem hq']
  rw [List.getLast?_eq_getElem?]
  simp only [List.length_set, hl, Nat.add_sub_cancel]
  by_cases hqm : q = m
  · subst hqm
    rw [List.getElem?_set_self (by simpa using hq')]
  · rw [List.getElem?_set_ne hqm, List.getElem?_set_self hm]

theorem swapAt_eq_dropLast_append {α : Type*} (l : List α) (m q : ℕ)
    (hl : l.length = m + 1) (hq : q ≤ m) :
    ∃ z, l[q]? = some z ∧ swapAt l m q = (swapAt l m q).dropLast ++ [z] := by
  have hq' : q < l.length := by omega
  refine ⟨l.get ⟨q, hq'⟩, by simp [List.getElem?_eq_getElem hq'], ?_⟩
  have hmem : l.get ⟨q, hq'⟩ ∈ (swapAt l m q).getLast? := by
    rw [Option.mem_def, swapAt_getLast? l m q hl hq]
    simp [List.getElem?_eq_getElem hq']
  exact (List.dropLast_append_getLast? _ hmem).symm

theorem swapAt_append {α : Type*} (front : List α) (z : α) (i j : ℕ)
    (hi : i < front.length) (hj : j < front.length) :
    swapAt (front ++ [z]) i j = swapAt front i j ++ [z] := by
  simp only [swapAt, List.getElem?_append_left hi, List.getElem?_append_left hj,
    List.getElem?_eq_getElem hi, List.getElem?_eq_getElem hj]
  rw [List.set_append_left _ _ hi]
  rw [List.set_append_left _ _ (by simpa using hj)]

theorem applySwaps_cons {α : Type*} (i j : ℕ) (ops : List (ℕ × ℕ)) (l : List α) :
    applySwaps ((i, j) :: ops) l = applySwaps ops (swapAt l i j) := by
  rw [applySwaps, applySwaps, List.foldl_cons]

theorem applySwaps_append_singleton {α : Type*} (ops : List (ℕ × ℕ))
    (front : List α) (z : α)
    (h : ∀ p ∈ ops, p.1 < front.length ∧ p.2 < front.length) :
    applySwaps ops (front ++ [z]) = applySwaps ops front ++ [z] := by
  induction ops generalizing front with
  | nil => rfl
  | cons p rest ih =>
    obtain ⟨i, j⟩ := p
    obtain ⟨h1, h2⟩ := h (i, j) (List.mem_cons_self _ _)
    rw [applySwaps_cons, applySwaps_cons, swapAt_append front z i j h1 h2]
    apply ih
    intro p2 hp2
    have h3 := h p2 (List.mem_cons_of_mem _ hp2)
    rwa [swapAt_length]

theorem validDraws_zip_le (m : ℕ) (rest : List ℕ)
    (hlen : rest.length = m - 1)
    (hv : ∀ k, k < rest.length → rest.getD k 0 ≤ m - 1 - k) :
    ∀ p ∈ (shuffleIndices m).zip rest, p.2 ≤ p.1 := by
  intro p hp
  rw [List.mem_iff_getElem?] at hp
  obtain ⟨k, hk⟩ := hp
  rw [List.getElem?_zip_eq_some] at hk
  obtain ⟨h1, h2⟩ := hk
  have hk2 : k < rest.length := by
    rcases List.getElem?_eq_some_iff.1 h2 with ⟨h, _⟩
    exact h
  have hks : k < m - 1 := by omega
  rw [shuffleIndices_getElem? m k hks] at h1
  have hp1 : p.1 = m - 1 - k := by
    simpa using h1.symm
  have hgd : rest.getD k 0 = p.2 := by
    rw [List.getD_eq_getElem?_getD, h2]
    rfl
  have h4 := hv k hk2
  omega

theorem shuffle_cons_decomp {α : Type*} (l : List α) (m q : ℕ) (rest : List ℕ)
    (hl : l.length = m + 1) (hm : 1 ≤ m) (hq : q ≤ m)
    (hrest : ∀ p ∈ (shuffleIndices m).zip rest, p.2 ≤ p.1) :
    ∃ z, l[q]? = some z ∧
      shuffle (q :: rest) l =
        shuffle rest ((swapAt l m q).dropLast) ++ [z] := by
  obtain ⟨z, hz, hdecomp⟩ := swapAt_eq_dropLast_append l m q hl hq
  refine ⟨z, hz, ?_⟩
  set front := (swapAt l m q).dropLast with hfront
  have hfl : front.length = m := by
    rw [hfront, List.length_dropLast, swapAt_length, hl]
    omega
  rw [shuffle, hl, shuffleIndices_succ m hm, List.zip_cons_cons, applySwaps_cons,
    hdecomp, applySwaps_append_singleton]
  · rw [shuffle, hfl]
  · intro p hp
    have hmem := List.of_mem_zip hp
    have h1 := (mem_shuffleIndices m p.1).1 hmem.1
    have h2 := hrest p hp
    omega

theorem validDraws_small (n : ℕ) (hn : n ≤ 1) (js : List ℕ) (h : validDraws n js) :
    js = [] := by
  obtain ⟨h1, _⟩ := h
  have : js.length = 0 := by omega
  exact List.length_eq_zero.1 this

theorem shuffle_nil {α : Type*} (js : List ℕ) : shuffle js ([] : List α) = [] := rfl

theorem shuffle_singleton {α : Type*} (js : List ℕ) (a : α) :
    shuffle js [a] = [a] := rfl

theorem fisherYates_exists_unique {α : Type*} (n : ℕ) :
    ∀ (l l' : List α), l.length = n → l.Nodup → l'.Perm l →
      ∃! js : List ℕ, validDraws n js ∧ shuffle js l = l' := by
  induction n using Nat.strong_induction_on with
  | _ n ih =>
    rcases n with _ | (_ | m)
    · intro l l' hlen hnd hperm
      have hl : l = [] := List.length_eq_zero.1 hlen
      subst hl
      have hl' : l' = [] := List.perm_nil.1 hperm
      subst hl'
      refine ⟨[], ⟨⟨rfl, by intro k hk; simp at hk⟩, shuffle_nil []⟩, ?_⟩
      intro y hy
      exact validDraws_small 0 (by omega) y hy.1
    · intro l l' hlen hnd hperm
      obtain ⟨a, hl⟩ := List.length_eq_one.1 hlen
      subst hl
      have hl' : l' = [a] := List.perm_singleton.1 hperm
      subst hl'
      refine ⟨[], ⟨⟨rfl, by intro k hk; simp at hk⟩, shuffle_singleton [] a⟩, ?_⟩
      intro y hy
      exact validDraws_small 1 (by omega) y hy.1
    · intro l l' hlen hnd hperm
      have hm1 : 1 ≤ m + 1 := by omega
      have hl'len : l'.length = m + 2 := by rw [hperm.length_eq, hlen]
      have hlne : l' ≠ [] := by
        intro hc
        rw [hc] at hl'len
        simp at hl'len
      have hzl' : l'.dropLast ++ [l'.getLast hlne] = l' :=
        List.dropLast_append_getLast hlne
      have hzmem : l'.getLast hlne ∈ l := (hperm.mem_iff).1 (List.getLast_mem hlne)
      obtain ⟨p, hp, hpz⟩ := List.getElem_of_mem hzmem
      have hpm : p ≤ m + 1 := by omega
      obtain ⟨z2, hz2, hdecomp⟩ := swapAt_eq_dropLast_append l (m + 1) p hlen hpm
      have hz2z : z2 = l'.getLast hlne := by
        rw [List.getElem?_eq_getElem hp] at hz2
        simp only [Option.some.injEq] at hz2
        rw [← hz2, hpz]
      rw [hz2z] at hdecomp
      have hfl : ((swapAt l (m + 1) p).dropLast).length = m + 1 := by
        rw [List.length_dropLast, swapAt_length, hlen]
        omega
      have hswnd : (swapAt l (m + 1) p).Nodup :=
        ((swapAt_perm l (m + 1) p).symm).nodup hnd
      have hfnd : ((swapAt l (m + 1) p).dropLast).Nodup :=
        List.Nodup.sublist (List.dropLast_sublist _) hswnd
      have hfperm : (l'.dropLast).Perm ((swapAt l (m + 1) p).dropLast) := by
        have h1 : (l'.dropLast ++ [l'.getLast hlne]).Perm
            ((swapAt l (m + 1) p).dropLast ++ [l'.getLast hlne]) := by
          rw [hzl', ← hdecomp]
          exact hperm.trans (swapAt_perm l (m + 1) p).symm
        exact (List.perm_append_right_iff [l'.getLast hlne]).1 h1
      obtain ⟨rest0, ⟨⟨hrlen, hrbound⟩, hrshuffle⟩, hruniq⟩ :=
        ih (m + 1) (by omega) ((swapAt l (m + 1) p).dropLast) l'.dropLast hfl hfnd hfperm
      have hrlen' : rest0.length = m := by omega
      refine ⟨p :: rest0, ⟨⟨?_, ?_⟩, ?_⟩, ?_⟩
      · simp [hrlen']
      · intro k hk
        match k with
        | 0 => simpa using hpm
        | (k'+1) =>
          rw [List.getD_cons_succ]
          have hk' : k' < rest0.length := by
            rw [List.length_cons] at hk
            omega
          have := hrbound k' hk'
          omega
      · have hzip := validDraws_zip_le (m + 1) rest0 (by omega) hrbound
        obtain ⟨z3, hz3, hsh⟩ := shuffle_cons_decomp l (m + 1) p rest0 hlen hm1 hpm hzip
        have hz3z : z3 = l'.getLast hlne := by
          rw [List.getElem?_eq_getElem hp] at hz3
          simp only [Option.some.injEq] at hz3
          rw [← hz3, hpz]
        rw [hsh, hrshuffle, hz3z, hzl']
      · rintro js2 ⟨⟨hjlen, hjbound⟩, hjsh⟩
        cases js2 with
        | nil =>
          rw [List.length_nil] at hjlen
          omega
        | cons q rest2 =>
          have hq : q ≤ m + 1 := by
            have := hjbound 0 (by simp)
            simpa using this
          have hq' : q < l.length := by omega
          have hrest2len : rest2.length = m := by
            rw [List.length_cons] at hjlen
            omega
          have hrest2bound : ∀ k, k < rest2.length → rest2.getD k 0 ≤ (m + 1) - 1 - k := by
            intro k hk
            have := hjbound (k + 1) (by rw [List.length_cons]; omega)
            rw [List.getD_cons_succ] at this
            omega
          have hzip2 := validDraws_zip_le (m + 1) rest2 (by omega) hrest2bound
          obtain ⟨z4, hz4, hsh2⟩ := shuffle_cons_decomp l (m + 1) q rest2 hlen hm1 hq hzip2
          rw [hsh2, ← hzl'] at hjsh
          obtain ⟨hfront_eq, hz4z⟩ := List.append_inj' hjsh rfl
          have hz4z' : z4 = l'.getLast hlne := by simpa using hz4z
          have hlq : l.get ⟨q, hq'⟩ = l'.getLast hlne := by
            rw [List.getElem?_eq_getElem hq'] at hz4
            simp only [Option.some.injEq] at hz4
            rw [List.get_eq_getElem, hz4, hz4z']
          have hqp : q = p := by
            have hinj := List.nodup_iff_injective_get.1 hnd
            have hfin : (⟨q, hq'⟩ : Fin l.length) = ⟨p, hp⟩ := by
              apply hinj
              rw [hlq, List.get_eq_getElem, hpz]
            exact congrArg Fin.val hfin
          subst hqp
          have hr2 := hruniq rest2 ⟨⟨by omega, hrest2bound⟩, hfront_eq⟩
          rw [hr2]

theorem perm_count_eq {α : Type*} [BEq α] {l₁ l₂ : List α} (p : l₁.Perm l₂) (a : α) :
    l₁.count a = l₂.count a :=
  p.countP_eq _

/-- A generic pre-session store used to probe the loop's final state. -/
def probeStore : Store :=
  { isPaletteRevealing := true, paletteCount := none, revealProgress := none }

/-! ### Claim theorems -/

/-- C1: for every canvas of width `W` and height `H`, `initRevealDots` produces a
cell list of exactly `W*H` elements in which each pair `(x, y)` with `x < W`,
`y < H` appears exactly once (row-major before shuffling); the shuffled reveal
order is a permutation of that same multiset; and over all frames of one
reveal session every cell is cleared exactly once. -/
theorem c1_dot_field_permutation (W H T : ℕ) (js : List ℕ) :
    (dotGrid W H).length = W * H ∧
    (∀ x y : ℕ, x < W → y < H → (dotGrid W H).count (x, y) = 1) ∧
    (shuffle js (dotGrid W H)).Perm (dotGrid W H) ∧
    (∀ x y : ℕ, x < W → y < H →
      ((clearedIndices (revealRun (shuffle js (dotGrid W H)).length T 0)).map
          (fun i => (shuffle js (dotGrid W H)).getD i (0, 0))).count (x, y) = 1) := by
  refine ⟨dotGrid_length W H, ?_, shuffle_perm js (dotGrid W H), ?_⟩
  · intro x y hx hy
    rw [dotGrid_count]
    simp [hx, hy]
  · intro x y hx hy
    rw [clearedIndices_revealRun]
    have hr : List.range' 0 ((shuffle js (dotGrid W H)).length - 0) =
        List.range (shuffle js (dotGrid W H)).length := by
      simp [List.range_eq_range']
    rw [hr, map_getD_range, perm_count_eq (shuffle_perm js (dotGrid W H)) (x, y),
      dotGrid_count]
    simp [hx, hy]

/-- Witness for C1 on a concrete 2x2 canvas. -/
theorem c1_dot_field_permutation_witness :
    (dotGrid 2 2).length = 2 * 2 ∧
    (dotGrid 2 2).count (1, 1) = 1 ∧
    (shuffle [2, 1, 0] (dotGrid 2 2)).Perm (dotGrid 2 2) ∧
    ((clearedIndices (revealRun (shuffle [2, 1, 0] (dotGrid 2 2)).length 3 0)).map
        (fun i => (shuffle [2, 1, 0] (dotGrid 2 2)).getD i (0, 0))).count (1, 1) = 1 := by
  obtain ⟨h1, h2, h3, h4⟩ := c1_dot_field_permutation 2 2 3 [2, 1, 0]
  exact ⟨h1, h2 1 1 (by decide) (by decide), h3, h4 1 1 (by decide) (by decide)⟩

/-- C2: for every `targetTotal` and any non-empty permutation
(`totalCells > 0`), the revealer reschedules itself exactly while its cursor
is strictly below `totalCells`; the final frame has cursor `totalCells`, does
not reschedule, and the completion branch marks the session inactive and pins
`displayedCount` to exactly `targetTotal`. -/
theorem c2_revealer_completion (N T : ℕ) (h : 0 < N) :
    (∀ f ∈ revealRun N T 0, f.schedulesNext = true ↔ f.endIndex < N) ∧
    (∃ f, (revealRun N T 0).getLast? = some f ∧ f.endIndex = N ∧
      f.schedulesNext = false) ∧
    (∀ s : Store, (runStore N T s).isPaletteRevealing = false ∧
      (runStore N T s).paletteCount = some (T : ℤ)) := by
  refine ⟨?_, ?_, fun s => runStore_final N T s⟩
  · intro f hf
    obtain ⟨c', rfl⟩ := revealRun_mem N T 0 f hf
    rw [revealFrame_schedulesNext, revealFrame_endIndex]
    simp
  · obtain ⟨c', h1, h2, h3⟩ := revealRun_getLast N T 0
    exact ⟨revealFrame N T c', h1, h2, h3⟩

/-- Witness for C2 at `N = 5`, `T = 7`. -/
theorem c2_revealer_completion_witness :
    (runStore 5 7 probeStore).isPaletteRevealing = false ∧
    (runStore 5 7 probeStore).paletteCount = some (7 : ℤ) :=
  (c2_revealer_completion 5 7 (by decide)).2.2 probeStore

/-- C4: each scheduled frame processes exactly
`B = max(2000, floor(totalCells / 200))` cells from the current cursor (fewer
only on the final frame, clamped to `totalCells`), so the reveal terminates
after exactly `ceil(totalCells / B)` frames; for `totalCells = 1,000,000`,
`B = max(2000, 5000) = 5000` and completion takes exactly 200 frames. -/
theorem c4_batch_and_frames (N T : ℕ) (h : 0 < N) :
    dotsPerFrame N = max 2000 (N / 200) ∧
    (revealRun N T 0).length = (N + dotsPerFrame N - 1) / dotsPerFrame N ∧
    (∀ k (hk : k < (revealRun N T 0).length),
      ((revealRun N T 0).get ⟨k, hk⟩).clearedBatch.length =
        min ((k + 1) * dotsPerFrame N) N - k * dotsPerFrame N) ∧
    (∀ k (hk : k < (revealRun N T 0).length), k + 1 < (revealRun N T 0).length →
      ((revealRun N T 0).get ⟨k, hk⟩).clearedBatch.length = dotsPerFrame N) ∧
    dotsPerFrame 1000000 = 5000 ∧
    (revealRun 1000000 T 0).length = 200 := by
  have hB : 0 < dotsPerFrame N := dotsPerFrame_pos N
  have hbatch : ∀ k (hk : k < (revealRun N T 0).length),
      ((revealRun N T 0).get ⟨k, hk⟩).clearedBatch.length =
        min ((k + 1) * dotsPerFrame N) N - k * dotsPerFrame N := by
    intro k hk
    rw [revealRun_get N T k h hk, revealFrame_clearedBatch, List.length_range']
    have hsm : (k + 1) * dotsPerFrame N = k * dotsPerFrame N + dotsPerFrame N :=
      Nat.succ_mul k (dotsPerFrame N)
    omega
  refine ⟨rfl, revealRun_length N T h, hbatch, ?_, by norm_num [dotsPerFrame], ?_⟩
  · intro k hk hk1
    rw [hbatch k hk]
    rw [revealRun_length N T h] at hk1
    have hceil := ceil_pred_mul_lt N (dotsPerFrame N) hB h
    have hmul : (k + 1) * dotsPerFrame N ≤
        ((N + dotsPerFrame N - 1) / dotsPerFrame N - 1) * dotsPerFrame N :=
      Nat.mul_le_mul_right _ (by omega)
    have hsm : (k + 1) * dotsPerFrame N = k * dotsPerFrame N + dotsPerFrame N :=
      Nat.succ_mul k (dotsPerFrame N)
    omega
  · rw [revealRun_length 1000000 T (by norm_num)]
    norm_num [dotsPerFrame]

/-- Witness for C4 at `N = 5` and the concrete 1,000,000-cell bound. -/
theorem c4_batch_and_frames_witness :
    (revealRun 5 7 0).length = (5 + dotsPerFrame 5 - 1) / dotsPerFrame 5 ∧
    dotsPerFrame 1000000 = 5000 ∧
    (revealRun 1000000 7 0).length = 200 :=
  ⟨(c4_batch_and_frames 5 7 (by decide)).2.1,
   (c4_batch_and_frames 1000000 7 (by decide)).2.2.2.2.1,
   (c4_batch_and_frames 1000000 7 (by decide)).2.2.2.2.2⟩

/-- C6: within one reveal session the successive observed values of
`revealProgress` and of the displayed count are non-decreasing, with the
progress values rationals in `[0, 1]` and the counts non-negative integers. -/
theorem c6_monotonicity (N T : ℕ) (h : 0 < N) :
    (∃ qs : List ℚ, progressSeq N T = qs.map some ∧
      List.Chain' (· ≤ ·) qs ∧ ∀ q ∈ qs, 0 ≤ q ∧ q ≤ 1) ∧
    (∃ zs : List ℤ, emittedCounts N T = zs.map some ∧
      List.Chain' (· ≤ ·) zs ∧ ∀ z ∈ zs, 0 ≤ z) := by
  constructor
  · exact ⟨_, progressSeq_eq N T h, progressVals_chain N T h, progressVals_bounds N T h⟩
  · refine ⟨_, emittedCounts_eq N T h, ?_, ?_⟩
    · rw [List.chain'_append]
      refine ⟨countsVals_chain N T h, List.chain'_singleton _, ?_⟩
      intro x hx y hy
      simp only [List.head?_cons, Option.mem_def, Option.some.injEq] at hy
      rw [Option.mem_def, countsVals_getLast N T h] at hx
      simp only [Option.some.injEq] at hx
      subst hx
      subst hy
      exact le_refl _
    · intro z hz
      rw [List.mem_append] at hz
      rcases hz with hz | hz
      · exact countsVals_nonneg N T h z hz
      · simp only [List.mem_singleton] at hz
        subst hz
        exact Int.natCast_nonneg T

/-- Witness for C6 at `N = 5`, `T = 7`. -/
theorem c6_monotonicity_witness :
    ∃ zs : List ℤ, emittedCounts 5 7 = zs.map some ∧
      List.Chain' (· ≤ ·) zs ∧ ∀ z ∈ zs, 0 ≤ z :=
  (c6_monotonicity 5 7 (by decide)).2

/-- C10: started on an empty permutation (`totalCells = 0`) the reveal loop
terminates after a single frame, clears no cell, and pins the displayed count
to `targetTotal`; but its intermediate update divides `0 / 0` (NaN, modelled
`none`), so the reported progress is not a number in `[0, 1]`; for
`totalCells > 0` every reported progress value is a rational in `[0, 1]`,
making `totalCells > 0` a genuine precondition for well-defined outputs. -/
theorem c10_zero_cells (T : ℕ) :
    (revealRun 0 T 0).length = 1 ∧
    (∀ f ∈ revealRun 0 T 0, f.clearedBatch = [] ∧ f.progress = none ∧
      f.revealedCount = none ∧ f.schedulesNext = false) ∧
    (∀ s : Store, (runStore 0 T s).isPaletteRevealing = false ∧
      (runStore 0 T s).paletteCount = some (T : ℤ)) ∧
    jsDiv 0 0 = none ∧
    (∀ N, 0 < N → ∀ f ∈ revealRun N T 0,
      ∃ q : ℚ, f.progress = some q ∧ 0 ≤ q ∧ q ≤ 1) := by
  have h00 : revealRun 0 T 0 = [revealFrame 0 T 0] := by
    rw [revealRun]
    rw [if_neg (Nat.not_lt_zero _)]
  refine ⟨by rw [h00]; rfl, ?_, fun s => runStore_final 0 T s, rfl, ?_⟩
  · intro f hf
    rw [h00, List.mem_singleton] at hf
    subst hf
    refine ⟨?_, ?_, ?_, ?_⟩
    · rw [revealFrame_clearedBatch]
      simp
    · rw [revealFrame_progress]
      simp [jsDiv]
    · rw [revealFrame_revealedCount]
      simp [jsDiv, jsFloorMul]
    · rw [revealFrame_schedulesNext]
      simp
  · intro N hN f hf
    obtain ⟨c', rfl⟩ := revealRun_mem N T 0 f hf
    have hNQ : (0 : ℚ) < (N : ℚ) := by exact_mod_cast hN
    refine ⟨((revealFrame N T c').endIndex : ℚ) / (N : ℚ), ?_, by positivity, ?_⟩
    · rw [revealFrame_progress]
      simp [jsDiv, Nat.pos_iff_ne_zero.1 hN]
    · rw [div_le_one hNQ]
      exact_mod_cast revealFrame_endIndex_le N T c'

/-- Witness for C10 at `T = 7` (and `N = 5` for the guarded part). -/
theorem c10_zero_cells_witness :
    (revealRun 0 7 0).length = 1 ∧ jsDiv 0 0 = none ∧
    (runStore 0 7 probeStore).paletteCount = some (7 : ℤ) :=
  ⟨(c10_zero_cells 7).1, (c10_zero_cells 7).2.2.2.1,
   ((c10_zero_cells 7).2.2.1 probeStore).2⟩

/-- C3: after each batch, with cursor `c` and `totalCells = N > 0`, the
revealer reports `progressFraction = c / N` and
`displayedCount = floor((c / N) * targetTotal)`, derived from progress; in
particular for `N = 640000` and `targetTotal = 1185512` the frame ending at
cursor `320000` displays `592756`, and at completion the count is exactly
`1185512`. -/
theorem c3_count_from_progress :
    (∀ N T : ℕ, 0 < N → ∀ f ∈ revealRun N T 0,
      f.progress = some ((f.endIndex : ℚ) / (N : ℚ)) ∧
      f.revealedCount = some ⌊((f.endIndex : ℚ) / (N : ℚ)) * (T : ℚ)⌋) ∧
    (∃ f ∈ revealRun 640000 1185512 0,
      f.endIndex = 320000 ∧ f.revealedCount = some 592756) ∧
    (∀ s : Store, (runStore 640000 1185512 s).paletteCount = some 1185512) := by
  refine ⟨?_, ?_, fun s => (runStore_final 640000 1185512 s).2⟩
  · intro N T hN f hf
    obtain ⟨c', rfl⟩ := revealRun_mem N T 0 f hf
    constructor
    · rw [revealFrame_progress]
      simp [jsDiv, Nat.pos_iff_ne_zero.1 hN]
    · rw [revealFrame_revealedCount]
      simp [jsDiv, jsFloorMul, Nat.pos_iff_ne_zero.1 hN]
  · have hB : dotsPerFrame 640000 = 3200 := by norm_num [dotsPerFrame]
    have hmap := revealRun_eq_map 640000 1185512 0 (by norm_num)
    rw [hB] at hmap
    norm_num at hmap
    refine ⟨revealFrame 640000 1185512 (99 * 3200), ?_, ?_, ?_⟩
    · rw [hmap]
      exact List.mem_map.2 ⟨99, List.mem_range.2 (by norm_num), rfl⟩
    · rw [revealFrame_endIndex, hB]
      omega
    · rw [revealFrame_revealedCount, revealFrame_endIndex, hB]
      have hmin2 : min (99 * 3200 + 3200) 640000 = 320000 := by omega
      rw [hmin2]
      have hdiv : jsDiv 320000 640000 = some (((320000 : ℕ) : ℚ) / ((640000 : ℕ) : ℚ)) := by
        rw [jsDiv, if_neg (by norm_num)]
      rw [hdiv, jsFloorMul, Option.map_some']
      have hq : ((320000 : ℕ) : ℚ) / ((640000 : ℕ) : ℚ) * ((1185512 : ℕ) : ℚ)
          = ((592756 : ℤ) : ℚ) := by
        norm_num
      rw [hq, Int.floor_intCast]

/-- Witness for C3 at `N = 5`, `T = 7`, plus the concrete completion pin. -/
theorem c3_count_from_progress_witness :
    (revealFrame 5 7 0).progress =
      some (((revealFrame 5 7 0).endIndex : ℚ) / ((5 : ℕ) : ℚ)) ∧
    (runStore 640000 1185512 probeStore).paletteCount = some 1185512 := by
  have hmem : revealFrame 5 7 0 ∈ revealRun 5 7 0 := by
    rw [revealRun, if_neg]
    · exact List.mem_singleton.2 rfl
    · rw [revealFrame_endIndex]
      norm_num [dotsPerFrame]
  exact ⟨(c3_count_from_progress.1 5 7 (by norm_num) _ hmem).1,
    c3_count_from_progress.2.2 probeStore⟩

/-- A mid-reveal UI state: two colors selected, a preview shown, a frame
callback scheduled and part of the canvas already cleared. -/
def midRevealState : UIState :=
  { selectedPaletteColors := [ColorKey.bleu, ColorKey.rouge]
    palettePreview := some "p"
    paletteResult := none
    paletteCount := 64
    revealProgress := 1/2
    paletteError := none
    isPaletteGenerating := false
    isPaletteRevealing := true
    rencontresMode := RencontresMode.nuages
    animationHandle := some 1
    dots := [(0, 0)]
    canvasCleared := [(0, 0)] }

/-- C5 counterexample: toggling the generation mode on a mid-reveal state
switches the mode and discards the preview state, but leaves the scheduled
frame callback in place and does not repaint the canvas — contradicting the
claim that every cancel trigger cancels the scheduled callback and repaints
the canvas to the covering color. -/
theorem c5_cancel_counterexample :
    (setModeBrumes midRevealState).rencontresMode = RencontresMode.brumes ∧
    (setModeBrumes midRevealState).animationHandle = some 1 ∧
    (setModeBrumes midRevealState).canvasCleared = [(0, 0)] ∧
    ¬((setModeBrumes midRevealState).animationHandle = none ∧
      (setModeBrumes midRevealState).canvasCleared = []) := by
  refine ⟨rfl, rfl, rfl, ?_⟩
  intro hc
  exact Option.noConfusion hc.1

/-- C5 amended: a new generation request cancels the scheduled frame callback,
discards the session state and repaints the canvas to the covering color; a
color-selection change discards the preview state and repaints the canvas
when a preview is displayed but never cancels the scheduled callback; a mode
toggle discards the preview state but neither cancels the scheduled callback
nor repaints the canvas. -/
theorem c5_cancel_amended :
    (∀ js W H s, (generateReset js W H s).animationHandle = none ∧
      (generateReset js W H s).canvasCleared = [] ∧
      (generateReset js W H s).palettePreview = none ∧
      (generateReset js W H s).paletteResult = none ∧
      (generateReset js W H s).paletteCount = 0 ∧
      (generateReset js W H s).revealProgress = 0) ∧
    (∀ color s, s.palettePreview.isSome = true →
      (togglePaletteColor color s).canvasCleared = [] ∧
      (togglePaletteColor color s).palettePreview = none ∧
      (togglePaletteColor color s).paletteResult = none ∧
      (togglePaletteColor color s).paletteCount = 0) ∧
    (∀ color s, (togglePaletteColor color s).animationHandle = s.animationHandle) ∧
    (∀ s, (setModeBrumes s).animationHandle = s.animationHandle ∧
      (setModeBrumes s).canvasCleared = s.canvasCleared) ∧
    (∀ s, (setModeNuages s).animationHandle = s.animationHandle ∧
      (setModeNuages s).canvasCleared = s.canvasCleared) := by
  refine ⟨fun js W H s => ⟨rfl, rfl, rfl, rfl, rfl, rfl⟩, ?_, ?_, ?_, ?_⟩
  · intro color s h
    simp [togglePaletteColor, h]
  · intro color s
    simp only [togglePaletteColor]
    split <;> rfl
  · intro s
    refine ⟨?_, ?_⟩ <;> (simp only [setModeBrumes]; split <;> rfl)
  · intro s
    refine ⟨?_, ?_⟩ <;> (simp only [setModeNuages]; split <;> rfl)

/-- Witness for C5 (amended) at a concrete mid-reveal state. -/
theorem c5_cancel_amended_witness :
    (togglePaletteColor ColorKey.vert midRevealState).canvasCleared = [] ∧
    (togglePaletteColor ColorKey.vert midRevealState).animationHandle = some 1 := by
  refine ⟨(c5_cancel_amended.2.1 ColorKey.vert midRevealState rfl).1, ?_⟩
  rw [c5_cancel_amended.2.2.1 ColorKey.vert midRevealState]
  rfl

/-- C7: the revealer uses `total_available` as `targetTotal` when present and
positive and otherwise falls back to `count`; a response with `count = 500`
and no `total_available` yields `targetTotal = 500`, and `total_available = 0`
also falls back to `count`. -/
theorem c7_total_available_fallback :
    (∀ t c : ℕ, 0 < t → jsOr (some t) c = t) ∧
    (∀ c : ℕ, jsOr none c = c) ∧
    (∀ c : ℕ, jsOr (some 0) c = c) ∧
    jsOr none 500 = 500 ∧
    (∀ js W H s data, 2 ≤ s.selectedPaletteColors.length → data.error = none →
      (handleGeneratePalette js W H (Except.ok data) s).paletteCount =
        jsOr data.total_available data.count) := by
  refine ⟨?_, fun c => rfl, fun c => rfl, rfl, ?_⟩
  · intro t c ht
    simp [jsOr, Nat.pos_iff_ne_zero.1 ht]
  · intro js W H s data hcols herr
    rw [handleGeneratePalette, if_neg (by omega)]
    simp [herr]

/-- A successful generation response with `count = 500` and no
`total_available`. -/
def okResponse : GenResponse :=
  { preview := "p.png", count := 500, total_available := none, error := none }

/-- Witness for C7 on `okResponse` and a concrete positive total. -/
theorem c7_total_available_fallback_witness :
    jsOr (some 3) 500 = 3 ∧
    (handleGeneratePalette [] 2 2 (Except.ok okResponse) midRevealState).paletteCount
      = jsOr none 500 := by
  refine ⟨c7_total_available_fallback.1 3 500 (by decide), ?_⟩
  rw [c7_total_available_fallback.2.2.2.2 [] 2 2 midRevealState okResponse
    (by decide) rfl]
  rfl

/-- C8: a generation response carrying an error field aborts the session
before it starts — the error string is surfaced verbatim, no cell is
cleared, the canvas stays in its opaque covering state, no frame is
scheduled and the reveal flag is untouched. -/
theorem c8_error_aborts (js : List ℕ) (W H : ℕ) (s : UIState) (data : GenResponse)
    (e : String) (hcols : 2 ≤ s.selectedPaletteColors.length)
    (herr : data.error = some e) :
    (handleGeneratePalette js W H (Except.ok data) s).paletteError = some e ∧
    (handleGeneratePalette js W H (Except.ok data) s).canvasCleared = [] ∧
    (handleGeneratePalette js W H (Except.ok data) s).animationHandle = none ∧
    (handleGeneratePalette js W H (Except.ok data) s).palettePreview = none ∧
    (handleGeneratePalette js W H (Except.ok data) s).isPaletteGenerating = false ∧
    (handleGeneratePalette js W H (Except.ok data) s).isPaletteRevealing =
      s.isPaletteRevealing := by
  rw [handleGeneratePalette, if_neg (by omega)]
  simp [herr, generateReset, initRevealDots]

/-- A generation response carrying an error field. -/
def errResponse : GenResponse :=
  { preview := "", count := 0, total_available := none, error := some "boom" }

/-- Witness for C8 on `errResponse` and a concrete state. -/
theorem c8_error_aborts_witness :
    (handleGeneratePalette [] 2 2 (Except.ok errResponse) midRevealState).paletteError
      = some "boom" ∧
    (handleGeneratePalette [] 2 2 (Except.ok errResponse) midRevealState).canvasCleared
      = [] :=
  ⟨(c8_error_aborts [] 2 2 midRevealState errResponse "boom" (by decide) rfl).1,
   (c8_error_aborts [] 2 2 midRevealState errResponse "boom" (by decide) rfl).2.1⟩

/-- C9: the shuffle is an in-place Fisher-Yates — iterating `i` from the last
position down to `1` and swapping position `i` with a position drawn from
`[0, i]` — and under a uniform random source every permutation of the cell
list is equally likely: every permutation target is reached by exactly one
valid draw sequence. -/
theorem c9_fisher_yates_uniform (l l' : List Cell) (hnd : l.Nodup)
    (hperm : l'.Perm l) :
    ∃! js : List ℕ, validDraws l.length js ∧ shuffle js l = l' :=
  fisherYates_exists_unique l.length l l' rfl hnd hperm

/-- Witness for C9 on a concrete two-cell list. -/
theorem c9_fisher_yates_uniform_witness :
    ∃! js : List ℕ,
      validDraws ([((0 : ℕ), (0 : ℕ)), (1, 1)] : List Cell).length js ∧
      shuffle js ([((0 : ℕ), (0 : ℕ)), (1, 1)] : List Cell)
        = [((1 : ℕ), (1 : ℕ)), (0, 0)] :=
  c9_fisher_yates_uniform [(0, 0), (1, 1)] [(1, 1), (0, 0)] (by decide) (by decide)

end Nuances
